import Mathlib

/-!
Verification of the sgo TCP service core against its specification.

The Go source is shallowly embedded:
* machine `uint32` values are `Nat` with explicit reduction `% 2^32`
  (`add32` / `sub32` below are uint32 `+=` / `-=`);
* byte slices are `List Nat` whose elements are `< 256`;
* fallible functions return `Except String _` mirroring the `(T, error)`
  Go convention; the in-place XXTEA loops become pure list recursions;
* stateful managers (`AuthManager`, the plugin manager) become explicit
  state passing: each method maps the state to `state × result`;
* external collaborators (HMAC-SHA256, UUID generation, the plugin's own
  `Execute` behaviour) are parameters of the embedded functions.
-/

namespace Crypto

/-- `2^32`, the uint32 modulus. -/
def W : Nat := 4294967296

/-- XXTEA magic constant (source: `delta = 0x9E3779B9`). -/
def delta : Nat := 0x9E3779B9

/-- uint32 addition (`+=` on Go uint32 values). -/
def add32 (a b : Nat) : Nat := (a + b) % W

/-- uint32 subtraction (`-=` on Go uint32 values, wrap-around). -/
def sub32 (a b : Nat) : Nat := (a + (W - b % W)) % W

/-- The MX mixing function
(source: `((z>>5 ^ y<<2) + (y>>3 ^ z<<4)) ^ ((sum ^ y) + (k[p&3^e] ^ z))`,
all operations on uint32). -/
def mx (z y sum p e : Nat) (k : List Nat) : Nat :=
  ((((z >>> 5) ^^^ ((y <<< 2) % W)) + ((y >>> 3) ^^^ ((z <<< 4) % W))) % W) ^^^
    ((((sum ^^^ y) + ((k.getD ((p &&& 3) ^^^ e) 0) ^^^ z)) % W))

/-- Inner loop of one encryption round (source: `encrypt`, the
`for p = 0; p < n-1; p++` body followed by the final `v[n-1]` update).
`y0` is the already-updated `v[0]` used by the last step, `z` is the
previously updated element, `p` the current index. -/
def encAux (k : List Nat) (sum e y0 z p : Nat) : List Nat → List Nat
  | [] => []
  | [x] => [add32 x (mx z y0 sum p e k)]
  | x :: y :: rest =>
      let x' := add32 x (mx z y sum p e k)
      x' :: encAux k sum e y0 x' (p + 1) (y :: rest)

/-- One encryption round of the source `encrypt` loop at a given `sum`
(`e = (sum >> 2) & 3` as in the source). -/
def encRound (k : List Nat) (sum : Nat) (v : List Nat) : List Nat :=
  let e := (sum >>> 2) &&& 3
  match v with
  | x0 :: x1 :: rest =>
      let x0' := add32 x0 (mx ((x1 :: rest).getLastD 0) x1 sum 0 e k)
      x0' :: encAux k sum e x0' x0' 1 (x1 :: rest)
  | w => w

/-- Inner loop of one decryption round (source: `decrypt`, the
`for p = n-1; p > 0; p--` body).  Processing element `x` at index `p`
uses `z = v[p-1]` (the not-yet-restored predecessor, passed as `zprev`)
and `y = v[p+1]` after restoration (the head of the recursive result);
the last element uses `y0 = v[0]` before restoration. -/
def decAux (k : List Nat) (sum e y0 zprev p : Nat) : List Nat → List Nat
  | [] => []
  | [x] => [sub32 x (mx zprev y0 sum p e k)]
  | x :: y :: rest =>
      let rest' := decAux k sum e y0 x (p + 1) (y :: rest)
      sub32 x (mx zprev (rest'.headD 0) sum p e k) :: rest'

/-- One decryption round of the source `decrypt` loop at a given `sum`. -/
def decRound (k : List Nat) (sum : Nat) (v : List Nat) : List Nat :=
  let e := (sum >>> 2) &&& 3
  match v with
  | x0 :: x1 :: rest =>
      let rest' := decAux k sum e x0 x0 1 (x1 :: rest)
      sub32 x0 (mx (rest'.getLastD 0) (rest'.headD 0) sum 0 e k) :: rest'
  | w => w

/-- `i` encryption rounds; round number `m` (1-based) runs with
`sum = m * delta` reduced mod `2^32`, exactly the source's
`sum += delta` accumulation. -/
def encIter (k : List Nat) : Nat → List Nat → List Nat
  | 0, v => v
  | i + 1, v => encRound k ((i + 1) * delta % W) (encIter k i v)

/-- `m` decryption rounds; the first executed round uses
`sum = m * delta % 2^32` and `sum` decreases by `delta` each round,
exactly the source's `sum = q*delta; ...; sum -= delta`. -/
def decIter (k : List Nat) : Nat → List Nat → List Nat
  | 0, v => v
  | m + 1, v => decIter k m (decRound k ((m + 1) * delta % W) v)

/-- Source `encrypt(v, k)`: `n < 2` is passed through, otherwise
`q = 6 + 52/n` rounds are applied. -/
def encrypt (k v : List Nat) : List Nat :=
  if v.length < 2 then v else encIter k (6 + 52 / v.length) v

/-- Source `decrypt(v, k)`. -/
def decrypt (k v : List Nat) : List Nat :=
  if v.length < 2 then v else decIter k (6 + 52 / v.length) v

/-- Little-endian packing of four bytes into one uint32
(source: `v[i/4] |= uint32(bytes[i]) << uint32(8*(i%4))`). -/
def word4 (a b c d : Nat) : Nat := a + b * 256 + c * 65536 + d * 16777216

/-- Groups a byte list into little-endian 32-bit words, the final
partial word zero-padded. -/
def bytesToWords : List Nat → List Nat
  | [] => []
  | [a] => [word4 a 0 0 0]
  | [a, b] => [word4 a b 0 0]
  | [a, b, c] => [word4 a b c 0]
  | a :: b :: c :: d :: rest => word4 a b c d :: bytesToWords rest

/-- Source `bytesToUint32s`: `n = (len+3)/4` words, forced up to at
least 2 words (the extra words stay zero). -/
def bytesToUint32s (bytes : List Nat) : List Nat :=
  let v := bytesToWords bytes
  if v.length < 2 then v ++ List.replicate (2 - v.length) 0 else v

/-- Little-endian bytes of one uint32
(source: `bytes[i] = byte(v[i/4] >> uint32(8*(i%4)))`). -/
def wordBytes (w : Nat) : List Nat :=
  [w % 256, w / 256 % 256, w / 65536 % 256, w / 16777216 % 256]

/-- Source `uint32sToBytes`. -/
def uint32sToBytes : List Nat → List Nat
  | [] => []
  | w :: rest => wordBytes w ++ uint32sToBytes rest

/-- Source `(c *XXTEACipher) Encrypt`: empty data returns empty; the
word conversion is checked for `n < 2`; on success the encrypted words
are re-serialised.  `key` is the cipher's 16-byte derived key field. -/
def Encrypt (key data : List Nat) : Except String (List Nat) :=
  if data.length = 0 then .ok [] else
    let v := bytesToUint32s data
    let k := bytesToUint32s key
    if v.length < 2 then .error "data too small"
    else .ok (uint32sToBytes (encrypt k v))

/-- Source `(c *XXTEACipher) Decrypt`. -/
def Decrypt (key data : List Nat) : Except String (List Nat) :=
  if data.length = 0 then .ok [] else
    let v := bytesToUint32s data
    let k := bytesToUint32s key
    if v.length < 2 then .error "data too small"
    else .ok (uint32sToBytes (decrypt k v))

end Crypto

-- ### Concrete instances used by witnesses and counterexamples

/-- A concrete 16-byte cipher key (the derived key field is always 16
bytes in the source). -/
def key16 : List Nat := [0, 1, 2, 3, 4, 5, 6, 7, 8, 9, 10, 11, 12, 13, 14, 15]

/-- The ciphertext of the two-byte message `[104, 105]` under `key16`,
extracted from the embedded `Encrypt`. -/
def ct16 : List Nat :=
  match Crypto.Encrypt key16 [104, 105] with
  | .ok b => b
  | .error _ => []

namespace Auth

/-- Source `auth.Client`. -/
structure Client where
  id : String
  secret : String
  name : String
  permissions : List String
  deriving DecidableEq

/-- Source `auth.Session`; instants are Unix nanoseconds as `Int`
(Go `time.Time` / `time.Duration` arithmetic). -/
structure Session where
  id : String
  clientID : String
  createdAt : Int
  expiresAt : Int
  deriving DecidableEq

/-- Source `auth.AuthManager`: the two guarded maps (the RW-mutex is a
serialisation device and has no sequential content). -/
structure AuthManager where
  clients : String → Option Client
  sessions : String → Option Session

def nsPerSec : Int := 1000000000

/-- `5 * time.Minute` in nanoseconds. -/
def fiveMinutes : Int := 5 * 60 * nsPerSec

/-- `24 * time.Hour` in nanoseconds (session validity). -/
def day : Int := 24 * 60 * 60 * nsPerSec

/-- Source `(am *AuthManager) Authenticate`.  External collaborators are
parameters: `sigFn` abstracts `generateSignature` (HMAC-SHA256 of
`"<client_id>:<nonce>:<timestamp>"`), `newSessionID` abstracts
`uuid.New().String()`, `now` is `time.Now()` in Unix nanoseconds; the
request time is `time.Unix(timestamp, 0)`, i.e. `timestamp * nsPerSec`.
The timestamp guard is the source's `now.Sub(requestTime) > 5*time.Minute`. -/
def Authenticate (sigFn : String → String → String → Int → String)
    (newSessionID : String) (now : Int) (am : AuthManager)
    (clientID nonce : String) (timestamp : Int) (signature : String) :
    AuthManager × Except String String :=
  match am.clients clientID with
  | none => (am, .error "client not found")
  | some client =>
    if signature ≠ sigFn client.secret clientID nonce timestamp then
      (am, .error "invalid credentials")
    else if now - timestamp * nsPerSec > fiveMinutes then
      (am, .error "timestamp expired")
    else
      let session : Session :=
        { id := newSessionID, clientID := clientID,
          createdAt := now, expiresAt := now + day }
      ({ am with sessions := fun sid =>
          if sid = newSessionID then some session else am.sessions sid },
        .ok newSessionID)

/-- Source `(am *AuthManager) RemoveClient`: deletes the client record
and every session whose `ClientID` is the removed id. -/
def RemoveClient (am : AuthManager) (clientID : String) :
    AuthManager × Except String Unit :=
  match am.clients clientID with
  | none => (am, .error "client not found")
  | some _ =>
    ({ clients := fun id => if id = clientID then none else am.clients id,
       sessions := fun sid =>
         match am.sessions sid with
         | some s => if s.clientID = clientID then none else some s
         | none => none },
      .ok ())

/-- Source `(am *AuthManager) ValidateSession`; expiry test is
`time.Now().After(session.ExpiresAt)`. -/
def ValidateSession (now : Int) (am : AuthManager) (sessionID : String) :
    AuthManager × Except String Client :=
  match am.sessions sessionID with
  | none => (am, .error "session not found")
  | some session =>
    if now > session.expiresAt then (am, .error "session expired")
    else
      match am.clients session.clientID with
      | none => (am, .error "client not found")
      | some client => (am, .ok client)

/-- Source `(am *AuthManager) HasPluginPermission`: the wildcard
`plugin:use` first, then the specific `plugin:<id>:use`. -/
def HasPluginPermission (am : AuthManager) (clientID pluginID : String) :
    Except String Bool :=
  match am.clients clientID with
  | none => .error "client not found"
  | some client =>
    if "plugin:use" ∈ client.permissions then .ok true
    else if ("plugin:" ++ pluginID ++ ":use") ∈ client.permissions then .ok true
    else .ok false

end Auth

namespace Plugin

/-- Source `plugin.PluginState`. -/
inductive PluginState
  | Disabled
  | Enabled
  | Running
  | Paused
  deriving DecidableEq

/-- Source `plugin.PluginType`. -/
inductive PluginType
  | ServicePlugin
  | CommandPlugin
  deriving DecidableEq

/-- Source `(pm *DefaultPluginManager) EnablePlugin` over the registry's
state view.  `BasePlugin.SetState` (the only implementation in the
repository) always succeeds, so the final `p.SetState(Enabled)` is a
plain state update. -/
def EnablePlugin (plugins : String → Option PluginState) (id : String) :
    (String → Option PluginState) × Except String Unit :=
  match plugins id with
  | none => (plugins, .error "plugin not found")
  | some st =>
    if st = .Enabled ∨ st = .Running then
      (plugins, .error "plugin is already enabled")
    else
      (fun i => if i = id then some .Enabled else plugins i, .ok ())

end Plugin

namespace Server

/-- Source `protocol.CommandRequestBody`. -/
structure CommandRequestBody where
  plugin : String
  command : String
  args : List String
  interactive : Bool
  deriving DecidableEq

/-- A plugin as the command dispatcher sees it: lifecycle state and
kind (source `Plugin` interface methods `State()` / `Type()`). -/
structure PluginRec where
  state : Plugin.PluginState
  ptype : Plugin.PluginType
  deriving DecidableEq

/-- Outbound frames built by the handler, as the `protocol.NewXxx`
constructors produce them (JSON serialisation abstracted away). -/
inductive OutMsg
  | dataStream (requestID : String) (data : List Nat) (encrypted : Bool)
  | commandResponse (requestID : String) (success : Bool) (message : String)
      (encrypted : Bool)
  | errorResponse (requestID : String) (code : Int) (message : String)
      (encrypted : Bool)
  deriving DecidableEq

/-- The invocation `cmdPlugin.Execute(ctx, append([]string{cmd}, args...),
nil, pw)`: argument vector and the `input io.Reader` argument, where
`none` is Go's `nil`. -/
structure ExecCall where
  args : List String
  input : Option Unit
  deriving DecidableEq

/-- The `pr.Read` loop of `handleCommandRequest`: each chunk delivered by
the pipe (in FIFO order) is wrapped in a `DATA_STREAM` frame and written
before the next read; the loop ends at EOF. -/
def streamLoop (requestID : String) (encrypted : Bool) :
    List (List Nat) → List OutMsg
  | [] => []
  | c :: rest =>
      .dataStream requestID c encrypted :: streamLoop requestID encrypted rest

/-- The terminal `COMMAND_RESPONSE` built after `cmdErr := <-respCh`. -/
def commandResponseOf (requestID : String) (cmdErr : Option String)
    (encrypted : Bool) : OutMsg :=
  match cmdErr with
  | some e => .commandResponse requestID false e encrypted
  | none => .commandResponse requestID true "Command executed successfully" encrypted

/-- Source `(s *Server) handleCommandRequest` after JSON decoding.
External behaviour of the plugin is parameterised: `chunks` is the
sequence of pipe reads of its output, `cmdErr` the value received on
`respCh`.  Returns the `Execute` invocation and the frames written on
the connection, or the error that `handleClient` converts into an
`ERROR_RESPONSE`. -/
def handleCommandRequest (am : Auth.AuthManager)
    (pm : String → Option PluginRec) (clientID requestID : String)
    (cmdReq : CommandRequestBody) (encrypted : Bool)
    (chunks : List (List Nat)) (cmdErr : Option String) :
    Except String (ExecCall × List OutMsg) :=
  match Auth.HasPluginPermission am clientID cmdReq.plugin with
  | .error e => .error ("failed to check permission: " ++ e)
  | .ok hasPermission =>
    if hasPermission = false then
      .error ("no permission to use plugin: " ++ cmdReq.plugin)
    else
      match pm cmdReq.plugin with
      | none => .error "failed to get plugin: plugin not found"
      | some p =>
        if p.state ≠ .Enabled ∧ p.state ≠ .Running then
          .error ("plugin " ++ cmdReq.plugin ++ " is not enabled")
        else if p.ptype ≠ .CommandPlugin then
          .error ("plugin " ++ cmdReq.plugin ++ " is not a command plugin")
        else
          .ok ({ args := cmdReq.command :: cmdReq.args, input := none },
            streamLoop requestID encrypted chunks ++
              [commandResponseOf requestID cmdErr encrypted])

/-- Source `(s *Server) handleDataStream`: the body is a stub that
returns `nil` without touching any state or writing any frame. -/
def handleDataStream (clientID requestID : String) (body : List Nat) :
    Except String (List OutMsg) :=
  .ok []

/-- One iteration of `handleClient`'s message loop for a
`COMMAND_REQUEST`: a handler error is answered with
`NewErrorResponseMessage(requestID, 500, err, false)` and the loop
continues (second component: the connection survives). -/
def handleClientCommandStep (am : Auth.AuthManager)
    (pm : String → Option PluginRec) (clientID requestID : String)
    (cmdReq : CommandRequestBody) (encrypted : Bool)
    (chunks : List (List Nat)) (cmdErr : Option String) :
    List OutMsg × Bool :=
  match handleCommandRequest am pm clientID requestID cmdReq encrypted chunks cmdErr with
  | .ok (_, msgs) => (msgs, true)
  | .error e => ([.errorResponse requestID 500 e false], true)

/-- One iteration of `handleClient`'s message loop for a `DATA_STREAM`. -/
def handleClientDataStep (clientID requestID : String) (body : List Nat) :
    List OutMsg × Bool :=
  match handleDataStream clientID requestID body with
  | .ok msgs => (msgs, true)
  | .error e => ([.errorResponse requestID 500 e false], true)

end Server

-- ### Concrete auth / plugin / server instances for witnesses

def sigFn0 : String → String → String → Int → String := fun _ _ _ _ => "sig0"

def client1 : Auth.Client :=
  { id := "c1", secret := "s1", name := "Client One", permissions := ["plugin:use"] }

def am0 : Auth.AuthManager :=
  { clients := fun id => if id = "c1" then some client1 else none,
    sessions := fun _ => none }

def sess1 : Auth.Session :=
  { id := "sid9", clientID := "c1", createdAt := 0, expiresAt := 100 }

def am1 : Auth.AuthManager :=
  { clients := fun id => if id = "c1" then some client1 else none,
    sessions := fun sid => if sid = "sid9" then some sess1 else none }

def client2 : Auth.Client :=
  { id := "c2", secret := "s2", name := "Client Two", permissions := [] }

def am2 : Auth.AuthManager :=
  { clients := fun id => if id = "c2" then some client2 else none,
    sessions := fun _ => none }

def client3 : Auth.Client :=
  { id := "c3", secret := "s3", name := "Client Three", permissions := ["plugin:use"] }

def am3 : Auth.AuthManager :=
  { clients := fun id => if id = "c3" then some client3 else none,
    sessions := fun _ => none }

def pmPaused : String → Option Plugin.PluginState :=
  fun id => if id = "svc" then some .Paused else none

def pmRun : String → Option Plugin.PluginState :=
  fun id => if id = "p" then some .Running else none

def pmEcho : String → Option Server.PluginRec :=
  fun id => if id = "echo" then
    some { state := .Enabled, ptype := .CommandPlugin } else none

def reqEcho : Server.CommandRequestBody :=
  { plugin := "echo", command := "say", args := ["hello"], interactive := false }

def reqInter : Server.CommandRequestBody :=
  { plugin := "echo", command := "cat", args := [], interactive := true }

namespace Crypto

lemma W_pos : 0 < W := by norm_num [W]

lemma add32_lt (a b : Nat) : add32 a b < W := Nat.mod_lt _ W_pos

lemma sub32_lt (a b : Nat) : sub32 a b < W := Nat.mod_lt _ W_pos

/-- uint32 subtraction undoes uint32 addition of the same summand. -/
lemma sub32_add32 (a m : Nat) (h : a < W) : sub32 (add32 a m) m = a := by
  simp only [add32, sub32, W] at *
  omega

/-- uint32 addition undoes uint32 subtraction of the same summand. -/
lemma add32_sub32 (a m : Nat) (h : a < W) : add32 (sub32 a m) m = a := by
  simp only [add32, sub32, W] at *
  omega

lemma encAux_length (k : List Nat) (sum e y0 : Nat) :
    ∀ (l : List Nat) (z p : Nat), (encAux k sum e y0 z p l).length = l.length := by
  intro l
  induction l with
  | nil => intro z p; simp [encAux]
  | cons x t ih =>
    intro z p
    cases t with
    | nil => simp [encAux]
    | cons y rest => simp [encAux, ih]

lemma decAux_length (k : List Nat) (sum e y0 : Nat) :
    ∀ (l : List Nat) (zprev p : Nat), (decAux k sum e y0 zprev p l).length = l.length := by
  intro l
  induction l with
  | nil => intro zprev p; simp [decAux]
  | cons x t ih =>
    intro zprev p
    cases t with
    | nil => simp [decAux]
    | cons y rest => simp [decAux, ih]

lemma encAux_lt (k : List Nat) (sum e y0 : Nat) :
    ∀ (l : List Nat) (z p : Nat), ∀ w ∈ encAux k sum e y0 z p l, w < W := by
  intro l
  induction l with
  | nil => intro z p w hw; simp [encAux] at hw
  | cons x t ih =>
    intro z p w hw
    cases t with
    | nil =>
      simp [encAux] at hw
      exact hw ▸ add32_lt _ _
    | cons y rest =>
      simp only [encAux, List.mem_cons] at hw
      rcases hw with h | h
      · exact h ▸ add32_lt _ _
      · exact ih _ _ _ h

lemma decAux_lt (k : List Nat) (sum e y0 : Nat) :
    ∀ (l : List Nat) (zprev p : Nat), ∀ w ∈ decAux k sum e y0 zprev p l, w < W := by
  intro l
  induction l with
  | nil => intro zprev p w hw; simp [decAux] at hw
  | cons x t ih =>
    intro zprev p w hw
    cases t with
    | nil =>
      simp [decAux] at hw
      exact hw ▸ sub32_lt _ _
    | cons y rest =>
      simp only [decAux, List.mem_cons] at hw
      rcases hw with h | h
      · exact h ▸ sub32_lt _ _
      · exact ih _ _ _ h

/-- The decryption inner loop undoes the encryption inner loop provided
the starting carries agree and the plaintext words are reduced. -/
lemma decAux_encAux (k : List Nat) (sum e y0 : Nat) :
    ∀ (l : List Nat) (z p : Nat), (∀ x ∈ l, x < W) →
      decAux k sum e y0 z p (encAux k sum e y0 z p l) = l := by
  intro l
  induction l with
  | nil => intro z p _; simp [encAux, decAux]
  | cons x t ih =>
    intro z p h
    cases t with
    | nil =>
      have hx : x < W := h x (by simp)
      simp [encAux, decAux, sub32_add32 _ _ hx]
    | cons y rest =>
      have hx : x < W := h x (by simp)
      have ht : ∀ w ∈ y :: rest, w < W := fun w hw => h w (by simp [hw])
      have henc : encAux k sum e y0 z p (x :: y :: rest) =
          add32 x (mx z y sum p e k) ::
            encAux k sum e y0 (add32 x (mx z y sum p e k)) (p + 1) (y :: rest) := rfl
      rw [henc]
      have hlen : (encAux k sum e y0 (add32 x (mx z y sum p e k)) (p + 1)
          (y :: rest)).length = (y :: rest).length := encAux_length k sum e y0 _ _ _
      obtain ⟨t0, ts, hT⟩ := List.exists_cons_of_ne_nil
        (l := encAux k sum e y0 (add32 x (mx z y sum p e k)) (p + 1) (y :: rest))
        (by intro hnil; rw [hnil] at hlen; simp at hlen)
      rw [hT]
      have hdec : decAux k sum e y0 z p (add32 x (mx z y sum p e k) :: t0 :: ts) =
          sub32 (add32 x (mx z y sum p e k))
              (mx z ((decAux k sum e y0 (add32 x (mx z y sum p e k)) (p + 1)
                (t0 :: ts)).headD 0) sum p e k) ::
            decAux k sum e y0 (add32 x (mx z y sum p e k)) (p + 1) (t0 :: ts) := rfl
      rw [hdec, ← hT, ih _ _ ht]
      simp [sub32_add32 _ _ hx]

/-- The encryption inner loop undoes the decryption inner loop. -/
lemma encAux_decAux (k : List Nat) (sum e y0 : Nat) :
    ∀ (l : List Nat) (z p : Nat), (∀ x ∈ l, x < W) →
      encAux k sum e y0 z p (decAux k sum e y0 z p l) = l := by
  intro l
  induction l with
  | nil => intro z p _; simp [encAux, decAux]
  | cons x t ih =>
    intro z p h
    cases t with
    | nil =>
      have hx : x < W := h x (by simp)
      simp [encAux, decAux, add32_sub32 _ _ hx]
    | cons y rest =>
      have hx : x < W := h x (by simp)
      have ht : ∀ w ∈ y :: rest, w < W := fun w hw => h w (by simp [hw])
      have hdec : decAux k sum e y0 z p (x :: y :: rest) =
          sub32 x (mx z ((decAux k sum e y0 x (p + 1) (y :: rest)).headD 0) sum p e k) ::
            decAux k sum e y0 x (p + 1) (y :: rest) := rfl
      rw [hdec]
      have hlen : (decAux k sum e y0 x (p + 1) (y :: rest)).length =
          (y :: rest).length := decAux_length k sum e y0 _ _ _
      obtain ⟨t0, ts, hT⟩ := List.exists_cons_of_ne_nil
        (l := decAux k sum e y0 x (p + 1) (y :: rest))
        (by intro hnil; rw [hnil] at hlen; simp at hlen)
      rw [hT]
      have henc : encAux k sum e y0 z p
          (sub32 x (mx z ((t0 :: ts).headD 0) sum p e k) :: t0 :: ts) =
          add32 (sub32 x (mx z ((t0 :: ts).headD 0) sum p e k))
              (mx z t0 sum p e k) ::
            encAux k sum e y0
              (add32 (sub32 x (mx z ((t0 :: ts).headD 0) sum p e k))
                (mx z t0 sum p e k)) (p + 1) (t0 :: ts) := rfl
      rw [henc]
      have hhead : (t0 :: ts).headD 0 = t0 := rfl
      rw [hhead, add32_sub32 _ _ hx, ← hT, ih _ _ ht]

lemma encRound_length (k : List Nat) (sum : Nat) (v : List Nat) :
    (encRound k sum v).length = v.length := by
  match v with
  | [] => rfl
  | [x] => rfl
  | x0 :: x1 :: rest =>
    show (_ :: encAux _ _ _ _ _ _ (x1 :: rest)).length = _
    simp [encAux_length]

lemma decRound_length (k : List Nat) (sum : Nat) (v : List Nat) :
    (decRound k sum v).length = v.length := by
  match v with
  | [] => rfl
  | [x] => rfl
  | x0 :: x1 :: rest =>
    show (_ :: decAux _ _ _ _ _ _ (x1 :: rest)).length = _
    simp [decAux_length]

lemma encRound_lt (k : List Nat) (sum : Nat) (v : List Nat)
    (h : ∀ x ∈ v, x < W) : ∀ x ∈ encRound k sum v, x < W := by
  match v with
  | [] => exact h
  | [x] => exact h
  | x0 :: x1 :: rest =>
    intro w hw
    rcases List.mem_cons.mp hw with h1 | h1
    · exact h1 ▸ add32_lt _ _
    · exact encAux_lt _ _ _ _ _ _ _ _ h1

lemma decRound_lt (k : List Nat) (sum : Nat) (v : List Nat)
    (h : ∀ x ∈ v, x < W) : ∀ x ∈ decRound k sum v, x < W := by
  match v with
  | [] => exact h
  | [x] => exact h
  | x0 :: x1 :: rest =>
    intro w hw
    rcases List.mem_cons.mp hw with h1 | h1
    · exact h1 ▸ sub32_lt _ _
    · exact decAux_lt _ _ _ _ _ _ _ _ h1

/-- One decryption round undoes one encryption round at the same `sum`. -/
lemma decRound_encRound (k : List Nat) (sum : Nat) (v : List Nat)
    (h2 : 2 ≤ v.length) (hv : ∀ x ∈ v, x < W) :
    decRound k sum (encRound k sum v) = v := by
  match v with
  | [] => simp at h2
  | [x] => simp at h2
  | x0 :: x1 :: rest =>
    have hx0 : x0 < W := hv x0 (by simp)
    have ht : ∀ w ∈ x1 :: rest, w < W := fun w hw => hv w (by simp [hw])
    set e := (sum >>> 2) &&& 3 with he
    set zl := (x1 :: rest).getLastD 0 with hzl
    set x0' := add32 x0 (mx zl x1 sum 0 e k) with hx0'
    have henc : encRound k sum (x0 :: x1 :: rest) =
        x0' :: encAux k sum e x0' x0' 1 (x1 :: rest) := rfl
    rw [henc]
    have hlen : (encAux k sum e x0' x0' 1 (x1 :: rest)).length =
        (x1 :: rest).length := encAux_length k sum e x0' _ _ _
    obtain ⟨t0, ts, hT⟩ := List.exists_cons_of_ne_nil
      (l := encAux k sum e x0' x0' 1 (x1 :: rest))
      (by intro hnil; rw [hnil] at hlen; simp at hlen)
    rw [hT]
    have hdec : decRound k sum (x0' :: t0 :: ts) =
        sub32 x0' (mx ((decAux k sum e x0' x0' 1 (t0 :: ts)).getLastD 0)
            ((decAux k sum e x0' x0' 1 (t0 :: ts)).headD 0) sum 0 e k) ::
          decAux k sum e x0' x0' 1 (t0 :: ts) := rfl
    rw [hdec, ← hT, decAux_encAux k sum e x0' (x1 :: rest) x0' 1 ht]
    have hhd : (x1 :: rest).headD 0 = x1 := rfl
    rw [hhd, hx0', sub32_add32 _ _ hx0]

/-- One encryption round undoes one decryption round at the same `sum`. -/
lemma encRound_decRound (k : List Nat) (sum : Nat) (v : List Nat)
    (h2 : 2 ≤ v.length) (hv : ∀ x ∈ v, x < W) :
    encRound k sum (decRound k sum v) = v := by
  match v with
  | [] => simp at h2
  | [x] => simp at h2
  | x0 :: x1 :: rest =>
    have hx0 : x0 < W := hv x0 (by simp)
    have ht : ∀ w ∈ x1 :: rest, w < W := fun w hw => hv w (by simp [hw])
    set e := (sum >>> 2) &&& 3 with he
    set R := decAux k sum e x0 x0 1 (x1 :: rest) with hR
    have hdec : decRound k sum (x0 :: x1 :: rest) =
        sub32 x0 (mx (R.getLastD 0) (R.headD 0) sum 0 e k) :: R := rfl
    rw [hdec]
    have hlen : R.length = (x1 :: rest).length := decAux_length k sum e x0 _ _ _
    obtain ⟨t0, ts, hT⟩ := List.exists_cons_of_ne_nil (l := R)
      (by intro hnil; rw [hnil] at hlen; simp at hlen)
    rw [hT]
    have henc : encRound k sum
        (sub32 x0 (mx ((t0 :: ts).getLastD 0) ((t0 :: ts).headD 0) sum 0 e k)
          :: t0 :: ts) =
        add32 (sub32 x0 (mx ((t0 :: ts).getLastD 0) ((t0 :: ts).headD 0) sum 0 e k))
            (mx ((t0 :: ts).getLastD 0) t0 sum 0 e k) ::
          encAux k sum e
            (add32 (sub32 x0
                (mx ((t0 :: ts).getLastD 0) ((t0 :: ts).headD 0) sum 0 e k))
              (mx ((t0 :: ts).getLastD 0) t0 sum 0 e k))
            (add32 (sub32 x0
                (mx ((t0 :: ts).getLastD 0) ((t0 :: ts).headD 0) sum 0 e k))
              (mx ((t0 :: ts).getLastD 0) t0 sum 0 e k))
            1 (t0 :: ts) := rfl
    rw [henc]
    have hhead : (t0 :: ts).headD 0 = t0 := rfl
    rw [hhead, add32_sub32 _ _ hx0, ← hT, hR,
      encAux_decAux k sum e x0 (x1 :: rest) x0 1 ht]

lemma encIter_length (k : List Nat) (q : Nat) (v : List Nat) :
    (encIter k q v).length = v.length := by
  induction q with
  | zero => rfl
  | succ i ih => simp [encIter, encRound_length, ih]

lemma decIter_length (k : List Nat) (q : Nat) (v : List Nat) :
    (decIter k q v).length = v.length := by
  induction q generalizing v with
  | zero => rfl
  | succ m ih => simp [decIter, ih, decRound_length]

lemma encIter_lt (k : List Nat) (q : Nat) (v : List Nat)
    (h : ∀ x ∈ v, x < W) : ∀ x ∈ encIter k q v, x < W := by
  induction q with
  | zero => exact h
  | succ i ih => exact encRound_lt _ _ _ ih

lemma decIter_lt (k : List Nat) (q : Nat) (v : List Nat)
    (h : ∀ x ∈ v, x < W) : ∀ x ∈ decIter k q v, x < W := by
  induction q generalizing v with
  | zero => exact h
  | succ m ih => exact ih _ (decRound_lt _ _ _ h)

/-- Full-loop inversion: `q` decryption rounds undo `q` encryption rounds. -/
lemma decIter_encIter (k : List Nat) (q : Nat) (v : List Nat)
    (h2 : 2 ≤ v.length) (hv : ∀ x ∈ v, x < W) :
    decIter k q (encIter k q v) = v := by
  induction q with
  | zero => rfl
  | succ i ih =>
    show decIter k i (decRound k ((i + 1) * delta % W)
      (encRound k ((i + 1) * delta % W) (encIter k i v))) = v
    rw [decRound_encRound k _ (encIter k i v)
      (by rw [encIter_length]; exact h2) (encIter_lt k i v hv)]
    exact ih

/-- Full-loop inversion the other way: `q` encryption rounds undo `q`
decryption rounds. -/
lemma encIter_decIter (k : List Nat) (q : Nat) (v : List Nat)
    (h2 : 2 ≤ v.length) (hv : ∀ x ∈ v, x < W) :
    encIter k q (decIter k q v) = v := by
  induction q generalizing v with
  | zero => rfl
  | succ m ih =>
    show encRound k ((m + 1) * delta % W)
      (encIter k m (decIter k m (decRound k ((m + 1) * delta % W) v))) = v
    rw [ih (decRound k ((m + 1) * delta % W) v)
      (by rw [decRound_length]; exact h2) (decRound_lt _ _ _ hv)]
    exact encRound_decRound k _ v h2 hv

lemma bytesToWords_length : ∀ bs : List Nat,
    (bytesToWords bs).length = (bs.length + 3) / 4
  | [] => rfl
  | [a] => by simp [bytesToWords]
  | [a, b] => by simp [bytesToWords]
  | [a, b, c] => by simp [bytesToWords]
  | a :: b :: c :: d :: rest => by
    show (word4 a b c d :: bytesToWords rest).length = _
    simp only [List.length_cons, bytesToWords_length rest]
    omega

lemma word4_lt (a b c d : Nat) (ha : a < 256) (hb : b < 256) (hc : c < 256)
    (hd : d < 256) : word4 a b c d < W := by
  simp only [word4, W]
  omega

lemma bytesToWords_lt : ∀ bs : List Nat, (∀ x ∈ bs, x < 256) →
    ∀ w ∈ bytesToWords bs, w < W
  | [], _ => by simp [bytesToWords]
  | [a], h => by
    show ∀ w ∈ [word4 a 0 0 0], w < W
    intro w hw
    rw [List.mem_singleton] at hw
    rw [hw]
    exact word4_lt _ _ _ _ (h a (by simp)) (by norm_num) (by norm_num) (by norm_num)
  | [a, b], h => by
    show ∀ w ∈ [word4 a b 0 0], w < W
    intro w hw
    rw [List.mem_singleton] at hw
    rw [hw]
    exact word4_lt _ _ _ _ (h a (by simp)) (h b (by simp)) (by norm_num) (by norm_num)
  | [a, b, c], h => by
    show ∀ w ∈ [word4 a b c 0], w < W
    intro w hw
    rw [List.mem_singleton] at hw
    rw [hw]
    exact word4_lt _ _ _ _ (h a (by simp)) (h b (by simp)) (h c (by simp)) (by norm_num)
  | a :: b :: c :: d :: rest, h => by
    intro w hw
    rcases List.mem_cons.mp hw with h1 | h1
    · exact h1 ▸ word4_lt _ _ _ _ (h a (by simp)) (h b (by simp)) (h c (by simp))
        (h d (by simp))
    · exact bytesToWords_lt rest (fun x hx => h x (by simp [hx])) w h1

lemma bytesToUint32s_length (bs : List Nat) :
    (bytesToUint32s bs).length = max ((bs.length + 3) / 4) 2 := by
  simp only [bytesToUint32s]
  split
  · rename_i h
    rw [bytesToWords_length] at h
    simp [bytesToWords_length]
    omega
  · rename_i h
    rw [bytesToWords_length] at h
    simp [bytesToWords_length]
    omega

lemma bytesToUint32s_length_ge (bs : List Nat) : 2 ≤ (bytesToUint32s bs).length := by
  rw [bytesToUint32s_length]
  omega

lemma bytesToUint32s_lt (bs : List Nat) (h : ∀ x ∈ bs, x < 256) :
    ∀ w ∈ bytesToUint32s bs, w < W := by
  intro w hw
  simp only [bytesToUint32s] at hw
  split at hw
  · rcases List.mem_append.mp hw with h1 | h1
    · exact bytesToWords_lt bs h w h1
    · rw [List.eq_of_mem_replicate h1]
      exact W_pos
  · exact bytesToWords_lt bs h w hw

lemma uint32sToBytes_length : ∀ v : List Nat,
    (uint32sToBytes v).length = 4 * v.length
  | [] => rfl
  | w :: rest => by
    show (wordBytes w ++ uint32sToBytes rest).length = _
    simp only [List.length_append, uint32sToBytes_length rest, wordBytes,
      List.length_cons, List.length_nil]
    omega

lemma uint32sToBytes_lt : ∀ v : List Nat, ∀ x ∈ uint32sToBytes v, x < 256
  | [], x => by simp [uint32sToBytes]
  | w :: rest, x => by
    intro hx
    rcases List.mem_append.mp hx with h1 | h1
    · simp only [wordBytes, List.mem_cons, List.not_mem_nil, or_false] at h1
      rcases h1 with rfl | rfl | rfl | rfl <;> exact Nat.mod_lt _ (by norm_num)
    · exact uint32sToBytes_lt rest x h1

/-- Reassembling the four little-endian bytes of a reduced uint32 gives
it back. -/
lemma word4_wordBytes (w : Nat) (h : w < W) :
    word4 (w % 256) (w / 256 % 256) (w / 65536 % 256) (w / 16777216 % 256) = w := by
  simp only [word4, W] at *
  omega

lemma bytesToWords_uint32sToBytes : ∀ v : List Nat, (∀ x ∈ v, x < W) →
    bytesToWords (uint32sToBytes v) = v
  | [], _ => rfl
  | w :: rest, h => by
    show bytesToWords (wordBytes w ++ uint32sToBytes rest) = _
    show word4 (w % 256) (w / 256 % 256) (w / 65536 % 256) (w / 16777216 % 256) ::
      bytesToWords (uint32sToBytes rest) = _
    rw [word4_wordBytes w (h w (by simp)),
      bytesToWords_uint32sToBytes rest (fun x hx => h x (by simp [hx]))]

/-- Word-serialisation round trip for word lists of length at least 2. -/
lemma bytesToUint32s_uint32sToBytes (v : List Nat) (h2 : 2 ≤ v.length)
    (hv : ∀ x ∈ v, x < W) : bytesToUint32s (uint32sToBytes v) = v := by
  simp only [bytesToUint32s, bytesToWords_uint32sToBytes v hv]
  split
  · rename_i h
    omega
  · rfl

lemma encrypt_length (k v : List Nat) : (encrypt k v).length = v.length := by
  rw [encrypt]
  split
  · rfl
  · rw [encIter_length]

lemma decrypt_length (k v : List Nat) : (decrypt k v).length = v.length := by
  rw [decrypt]
  split
  · rfl
  · rw [decIter_length]

/-- Closed form of `Encrypt` for non-empty input. -/
lemma Encrypt_eq (key data : List Nat) (h : data.length ≠ 0) :
    Encrypt key data =
      .ok (uint32sToBytes (encrypt (bytesToUint32s key) (bytesToUint32s data))) := by
  have hge := bytesToUint32s_length_ge data
  rw [Encrypt, if_neg h]
  simp only
  rw [if_neg (by omega)]

/-- Closed form of `Decrypt` for non-empty input. -/
lemma Decrypt_eq (key data : List Nat) (h : data.length ≠ 0) :
    Decrypt key data =
      .ok (uint32sToBytes (decrypt (bytesToUint32s key) (bytesToUint32s data))) := by
  have hge := bytesToUint32s_length_ge data
  rw [Decrypt, if_neg h]
  simp only
  rw [if_neg (by omega)]

end Crypto

/-- C2: a ciphertext produced by `Encrypt` decrypts and re-encrypts to
itself: `encrypt(decrypt(b, k), k) == b` for every `b` in the image of
`Encrypt` under key `k` (bytes of `data` are Go `byte` values, hence
`< 256`). -/
theorem C2_decrypt_encrypt_roundtrip (key data b : List Nat)
    (hdata : ∀ x ∈ data, x < 256)
    (hE : Crypto.Encrypt key data = .ok b) :
    (Crypto.Decrypt key b).bind (Crypto.Encrypt key) = .ok b := by
  by_cases hd : data.length = 0
  · rw [Crypto.Encrypt, if_pos hd] at hE
    have hb : b = [] := by
      cases hE
      rfl
    subst hb
    rfl
  · -- non-empty plaintext: reduce `Encrypt` to its closed form
    rw [Crypto.Encrypt_eq key data hd] at hE
    set v := Crypto.bytesToUint32s data with hv
    set kk := Crypto.bytesToUint32s key with hkk
    have hv2 : 2 ≤ v.length := Crypto.bytesToUint32s_length_ge data
    have hvlt : ∀ x ∈ v, x < Crypto.W := Crypto.bytesToUint32s_lt data hdata
    set q := 6 + 52 / v.length with hq
    have henc : Crypto.encrypt kk v = Crypto.encIter kk q v := by
      rw [Crypto.encrypt, if_neg (by omega)]
    set w := Crypto.encIter kk q v with hw
    have hw2 : 2 ≤ w.length := by rw [hw, Crypto.encIter_length]; exact hv2
    have hwlen : w.length = v.length := by rw [hw, Crypto.encIter_length]
    have hwlt : ∀ x ∈ w, x < Crypto.W := Crypto.encIter_lt kk q v hvlt
    have hb : b = Crypto.uint32sToBytes w := by
      rw [henc] at hE
      cases hE
      rfl
    have hblen : b.length = 4 * w.length := by rw [hb, Crypto.uint32sToBytes_length]
    have hbne : b.length ≠ 0 := by omega
    have hbword : Crypto.bytesToUint32s b = w := by
      rw [hb]
      exact Crypto.bytesToUint32s_uint32sToBytes w hw2 hwlt
    have hdec : Crypto.decrypt kk w = v := by
      rw [Crypto.decrypt, if_neg (by omega), hwlen, ← hq, hw]
      exact Crypto.decIter_encIter kk q v hv2 hvlt
    have hD : Crypto.Decrypt key b = .ok (Crypto.uint32sToBytes v) := by
      rw [Crypto.Decrypt_eq key b hbne, hbword, ← hkk, hdec]
    rw [hD]
    show Crypto.Encrypt key (Crypto.uint32sToBytes v) = .ok b
    have hdlen : (Crypto.uint32sToBytes v).length ≠ 0 := by
      rw [Crypto.uint32sToBytes_length]
      omega
    rw [Crypto.Encrypt_eq key _ hdlen,
      Crypto.bytesToUint32s_uint32sToBytes v hv2 hvlt, ← hkk, henc, hb]

/-- Witness for C2 at the concrete key `key16` and plaintext
`[104, 105]`. -/
theorem C2_witness :
    (Crypto.Decrypt key16 ct16).bind (Crypto.Encrypt key16) = .ok ct16 :=
  C2_decrypt_encrypt_roundtrip key16 [104, 105] ct16 (by decide) (by rfl)

/-- C3 counterexample: on the one-byte input `[1]` the cipher emits 8
bytes, not `4 * ceil(1/4) = 4` bytes as the claim's rounding rule
demands, and the short input is not passed through unmodified. -/
theorem C3_counterexample :
    Crypto.Encrypt key16 [1] = .ok [13, 5, 87, 1, 196, 20, 100, 238] ∧
    (Crypto.Encrypt key16 [1]).map List.length = .ok 8 ∧
    8 ≠ 4 * ((1 + 3) / 4) ∧
    Crypto.Encrypt key16 [1] ≠ .ok [1] := by
  refine ⟨rfl, rfl, by decide, ?_⟩
  intro h
  have hrfl : Crypto.Encrypt key16 [1] = .ok [13, 5, 87, 1, 196, 20, 100, 238] := rfl
  rw [hrfl] at h
  injection h with h2
  exact (by decide : ¬([13, 5, 87, 1, 196, 20, 100, 238] = [1])) h2

/-- C3 amended: the output length is the input length rounded up to the
4-byte block width but never below two blocks (8 bytes) for non-empty
input; empty input yields empty output; only the inner block routine
passes arrays of fewer than two words through unchanged (a case
`Encrypt` never reaches). -/
theorem C3_length_amended (key data k v : List Nat) :
    Crypto.Encrypt key [] = .ok [] ∧
    (data.length ≠ 0 → ∃ b, Crypto.Encrypt key data = .ok b ∧
      b.length = 4 * max ((data.length + 3) / 4) 2) ∧
    (v.length < 2 → Crypto.encrypt k v = v ∧ Crypto.decrypt k v = v) := by
  refine ⟨rfl, ?_, ?_⟩
  · intro h
    refine ⟨_, Crypto.Encrypt_eq key data h, ?_⟩
    rw [Crypto.uint32sToBytes_length, Crypto.encrypt_length,
      Crypto.bytesToUint32s_length]
  · intro h
    exact ⟨by rw [Crypto.encrypt, if_pos h], by rw [Crypto.decrypt, if_pos h]⟩

/-- Witness for C3's amended statement at concrete inputs. -/
theorem C3_witness :
    Crypto.Encrypt key16 [] = .ok [] ∧
    (∃ b, Crypto.Encrypt key16 [1] = .ok b ∧
      b.length = 4 * max (((1 : Nat) + 3) / 4) 2) ∧
    (Crypto.encrypt [1, 2, 3, 4] [7] = [7] ∧ Crypto.decrypt [1, 2, 3, 4] [7] = [7]) := by
  obtain ⟨h1, h2, h3⟩ := C3_length_amended key16 [1] [1, 2, 3, 4] [7]
  exact ⟨h1, h2 (by decide), h3 (by decide)⟩

/-- C9: `Encrypt` and `Decrypt` are total: empty input yields an empty
output with no error, and the `ErrDataTooSmall` branch is unreachable
because the byte-to-word conversion always yields at least 2 words. -/
theorem C9_cipher_total (key data : List Nat) :
    2 ≤ (Crypto.bytesToUint32s data).length ∧
    Crypto.Encrypt key [] = .ok [] ∧
    Crypto.Decrypt key [] = .ok [] ∧
    (∃ b, Crypto.Encrypt key data = .ok b) ∧
    (∃ b, Crypto.Decrypt key data = .ok b) := by
  refine ⟨Crypto.bytesToUint32s_length_ge data, rfl, rfl, ?_, ?_⟩
  · by_cases h : data.length = 0
    · exact ⟨[], by rw [Crypto.Encrypt, if_pos h]⟩
    · exact ⟨_, Crypto.Encrypt_eq key data h⟩
  · by_cases h : data.length = 0
    · exact ⟨[], by rw [Crypto.Decrypt, if_pos h]⟩
    · exact ⟨_, Crypto.Decrypt_eq key data h⟩

/-- C1 counterexample: a timestamp 301 seconds in the future passes the
guard `now.Sub(requestTime) > 5*time.Minute` (the difference is
negative), so authentication succeeds and a session is created, although
`|now - timestamp|` exceeds 5 minutes. -/
theorem C1_counterexample :
    (Auth.Authenticate sigFn0 "sid1" 0 am0 "c1" "n" 301 "sig0").2 = .ok "sid1" ∧
    ((Auth.Authenticate sigFn0 "sid1" 0 am0 "c1" "n" 301 "sig0").1.sessions
      "sid1").isSome = true ∧
    301 * Auth.nsPerSec - 0 > Auth.fiveMinutes :=
  ⟨rfl, rfl, by decide⟩

/-- C1 amended: with the client present and the signature valid, the
timestamp guard is one-sided: `Authenticate` fails with the
timestamp-expired error exactly when `now - timestamp` exceeds 5
minutes (timestamp in the past), leaving the store unchanged; any
timestamp not more than 5 minutes in the past — in particular every
future timestamp — is accepted and a session is created. -/
theorem C1_timestamp_amended (sigFn : String → String → String → Int → String)
    (newID : String) (now : Int) (am : Auth.AuthManager)
    (cid nonce : String) (ts : Int) (sig : String) (c : Auth.Client)
    (hc : am.clients cid = some c)
    (hsig : sig = sigFn c.secret cid nonce ts) :
    (now - ts * Auth.nsPerSec > Auth.fiveMinutes →
      Auth.Authenticate sigFn newID now am cid nonce ts sig =
        (am, .error "timestamp expired")) ∧
    (¬(now - ts * Auth.nsPerSec > Auth.fiveMinutes) →
      (Auth.Authenticate sigFn newID now am cid nonce ts sig).2 = .ok newID ∧
      ((Auth.Authenticate sigFn newID now am cid nonce ts sig).1.sessions
        newID).isSome = true) := by
  unfold Auth.Authenticate
  rw [hc]
  simp only
  rw [if_neg (by simp [hsig])]
  constructor
  · intro hold
    rw [if_pos hold]
  · intro hnot
    rw [if_neg hnot]
    simp

/-- Witness for C1's amended statement: a timestamp 301 seconds in the
past is rejected with the timestamp-expired error. -/
theorem C1_witness :
    Auth.Authenticate sigFn0 "sid2" (301 * Auth.nsPerSec) am0 "c1" "n" 0 "sig0" =
      (am0, .error "timestamp expired") :=
  (C1_timestamp_amended sigFn0 "sid2" (301 * Auth.nsPerSec) am0 "c1" "n" 0 "sig0"
    client1 rfl rfl).1 (by decide)

/-- C8: removing an existing client succeeds, deletes the client record
and every session created by that client, and afterwards
`ValidateSession` fails with the not-found error for each such session. -/
theorem C8_remove_client (am : Auth.AuthManager) (cid : String)
    (c : Auth.Client) (hc : am.clients cid = some c) :
    (Auth.RemoveClient am cid).2 = .ok () ∧
    (Auth.RemoveClient am cid).1.clients cid = none ∧
    (∀ sid s, am.sessions sid = some s → s.clientID = cid →
      (Auth.RemoveClient am cid).1.sessions sid = none) ∧
    (∀ sid s (now : Int), am.sessions sid = some s → s.clientID = cid →
      (Auth.ValidateSession now (Auth.RemoveClient am cid).1 sid).2 =
        .error "session not found") := by
  have hrm : Auth.RemoveClient am cid =
      ({ clients := fun id => if id = cid then none else am.clients id,
         sessions := fun sid =>
           match am.sessions sid with
           | some s => if s.clientID = cid then none else some s
           | none => none },
        .ok ()) := by
    unfold Auth.RemoveClient
    rw [hc]
  have hgone : ∀ sid s, am.sessions sid = some s → s.clientID = cid →
      (Auth.RemoveClient am cid).1.sessions sid = none := by
    intro sid s h1 h2
    rw [hrm]
    simp only
    rw [h1]
    simp [h2]
  refine ⟨by rw [hrm], by rw [hrm]; simp, hgone, ?_⟩
  intro sid s now h1 h2
  unfold Auth.ValidateSession
  rw [hgone sid s h1 h2]

/-- Witness for C8 on a concrete store holding one client and one of its
sessions. -/
theorem C8_witness :
    (Auth.RemoveClient am1 "c1").2 = .ok () ∧
    (Auth.RemoveClient am1 "c1").1.clients "c1" = none ∧
    (Auth.RemoveClient am1 "c1").1.sessions "sid9" = none ∧
    (Auth.ValidateSession 0 (Auth.RemoveClient am1 "c1").1 "sid9").2 =
      .error "session not found" :=
  have h := C8_remove_client am1 "c1" client1 rfl
  ⟨h.1, h.2.1, h.2.2.1 "sid9" sess1 rfl rfl, h.2.2.2 "sid9" sess1 0 rfl rfl⟩

/-- C10: `ValidateSession` never mutates the store — the returned state
is identical to the input state for every session id — and in
particular a session that fails validation as expired is still stored. -/
theorem C10_validate_no_mutation (now : Int) (am : Auth.AuthManager)
    (sid : String) :
    (Auth.ValidateSession now am sid).1 = am ∧
    ((Auth.ValidateSession now am sid).2 = .error "session expired" →
      (am.sessions sid).isSome = true ∧
      ((Auth.ValidateSession now am sid).1.sessions sid).isSome = true) := by
  have hpure : (Auth.ValidateSession now am sid).1 = am := by
    unfold Auth.ValidateSession
    rcases h : am.sessions sid with _ | s
    · rfl
    · by_cases hexp : now > s.expiresAt
      · simp [hexp]
      · rcases hc : am.clients s.clientID with _ | c <;> simp [hexp, hc]
  refine ⟨hpure, ?_⟩
  intro h2
  rcases h : am.sessions sid with _ | s
  · exfalso
    unfold Auth.ValidateSession at h2
    rw [h] at h2
    simp at h2
  · exact ⟨rfl, by rw [hpure, h]; rfl⟩

/-- C6 counterexample: a plugin in the `Paused` state is not rejected by
`EnablePlugin` — the call succeeds and moves it to `Enabled`, although
the claim says every non-disabled state fails with the already-enabled
error. -/
theorem C6_counterexample :
    (Plugin.EnablePlugin pmPaused "svc").2 = .ok () ∧
    (Plugin.EnablePlugin pmPaused "svc").1 "svc" = some .Enabled :=
  ⟨rfl, rfl⟩

/-- C6 amended: `EnablePlugin` fails with the already-enabled error iff
the current state is `Enabled` or `Running` (leaving the registry
unchanged); from `Disabled` or `Paused` it succeeds and sets the state
to `Enabled`, touching no other plugin. -/
theorem C6_enable_amended (plugins : String → Option Plugin.PluginState)
    (id : String) (st : Plugin.PluginState) (h : plugins id = some st) :
    ((st = .Enabled ∨ st = .Running) →
      Plugin.EnablePlugin plugins id = (plugins, .error "plugin is already enabled")) ∧
    ((st = .Disabled ∨ st = .Paused) →
      (Plugin.EnablePlugin plugins id).2 = .ok () ∧
      (Plugin.EnablePlugin plugins id).1 id = some .Enabled ∧
      ∀ j, j ≠ id → (Plugin.EnablePlugin plugins id).1 j = plugins j) := by
  have hE : Plugin.EnablePlugin plugins id =
      if st = .Enabled ∨ st = .Running then
        (plugins, .error "plugin is already enabled")
      else
        (fun i => if i = id then some .Enabled else plugins i, .ok ()) := by
    unfold Plugin.EnablePlugin
    rw [h]
  constructor
  · intro hst
    rw [hE, if_pos hst]
  · intro hst
    have hno : ¬(st = .Enabled ∨ st = .Running) := by
      rcases hst with rfl | rfl <;> simp
    rw [hE, if_neg hno]
    refine ⟨rfl, by simp, ?_⟩
    intro j hj
    simp [hj]

/-- Witness for C6's amended statement: a `Running` plugin is rejected
with the already-enabled error. -/
theorem C6_witness :
    Plugin.EnablePlugin pmRun "p" = (pmRun, .error "plugin is already enabled") :=
  (C6_enable_amended pmRun "p" .Running rfl).1 (Or.inr rfl)

/-- C4 counterexample: when the permission check denies the request, the
connection loop answers with an `ERROR_RESPONSE` whose code is 500 (the
generic handler-error code), not 403, and the connection survives. -/
theorem C4_counterexample :
    Server.handleClientCommandStep am2 pmEcho "c2" "r2" reqEcho false [] none =
      ([.errorResponse "r2" 500 "no permission to use plugin: echo" false], true) ∧
    (500 : Int) ≠ 403 :=
  ⟨rfl, by decide⟩

/-- C4 amended: a denied permission check makes `handleCommandRequest`
fail, and `handleClient` replies with `ERROR_RESPONSE{code: 500}` on the
same request id while the connection survives. -/
theorem C4_permission_denied_amended (am : Auth.AuthManager)
    (pm : String → Option Server.PluginRec) (clientID requestID : String)
    (cmdReq : Server.CommandRequestBody) (encrypted : Bool)
    (chunks : List (List Nat)) (cmdErr : Option String)
    (h : Auth.HasPluginPermission am clientID cmdReq.plugin = .ok false) :
    Server.handleClientCommandStep am pm clientID requestID cmdReq encrypted
        chunks cmdErr =
      ([.errorResponse requestID 500
          ("no permission to use plugin: " ++ cmdReq.plugin) false], true) := by
  unfold Server.handleClientCommandStep Server.handleCommandRequest
  rw [h]
  simp

/-- Witness for C4's amended statement on the concrete permission-less
client `c2`. -/
theorem C4_witness :
    Server.handleClientCommandStep am2 pmEcho "c2" "r9" reqEcho false [[1]] none =
      ([.errorResponse "r9" 500 ("no permission to use plugin: " ++ "echo") false],
        true) :=
  C4_permission_denied_amended am2 pmEcho "c2" "r9" reqEcho false [[1]] none rfl

/-- C5 counterexample: `handleDataStream` produces no frame and no
effect for any request id, and a fully authorised interactive command
request invokes `Execute` with a `nil` input reader — there is no
registered stdin to forward `DATA_STREAM` bytes to, so the plugin never
receives them. -/
theorem C5_counterexample :
    Server.handleDataStream "c3" "r3" [111, 110, 101] = .ok [] ∧
    Server.handleCommandRequest am3 pmEcho "c3" "r3" reqInter true [] none =
      .ok ({ args := ["cat"], input := none },
        [Server.OutMsg.commandResponse "r3" true "Command executed successfully"
          true]) :=
  ⟨rfl, rfl⟩

/-- C5 amended: every inbound `DATA_STREAM` frame is ignored — the
handler returns without state change or reply — and every successful
command dispatch passes a `nil` stdin to the plugin's `Execute`, so no
worker ever receives streamed input. -/
theorem C5_datastream_amended (clientID requestID : String) (body : List Nat)
    (am : Auth.AuthManager) (pm : String → Option Server.PluginRec)
    (cid rid : String) (cmdReq : Server.CommandRequestBody) (enc : Bool)
    (chunks : List (List Nat)) (cmdErr : Option String) :
    Server.handleDataStream clientID requestID body = .ok [] ∧
    Server.handleClientDataStep clientID requestID body = ([], true) ∧
    (∀ call msgs,
      Server.handleCommandRequest am pm cid rid cmdReq enc chunks cmdErr =
        .ok (call, msgs) → call.input = none) := by
  refine ⟨rfl, rfl, ?_⟩
  intro call msgs h
  unfold Server.handleCommandRequest at h
  split at h
  · exact absurd h (by simp)
  · split at h
    · exact absurd h (by simp)
    · split at h
      · exact absurd h (by simp)
      · split at h
        · exact absurd h (by simp)
        · split at h
          · exact absurd h (by simp)
          · injection h with h2
            have h3 := congrArg Prod.fst h2
            simp only at h3
            rw [← h3]

namespace Server

lemma streamLoop_eq_map (rid : String) (enc : Bool) :
    ∀ chunks : List (List Nat),
      streamLoop rid enc chunks = chunks.map (fun c => OutMsg.dataStream rid c enc)
  | [] => rfl
  | c :: rest => by
    show OutMsg.dataStream rid c enc :: streamLoop rid enc rest = _
    rw [streamLoop_eq_map rid enc rest]
    rfl

end Server

/-- C7: on a dispatch that passes all checks, the frames written for the
request are exactly the plugin's output chunks as `DATA_STREAM` frames in
production order followed by the terminal `COMMAND_RESPONSE`: the i-th
written frame carries the i-th chunk, the response sits at the final
index, and every `DATA_STREAM` frame precedes it. -/
theorem C7_stream_ordering (am : Auth.AuthManager)
    (pm : String → Option Server.PluginRec) (clientID requestID : String)
    (cmdReq : Server.CommandRequestBody) (encrypted : Bool)
    (chunks : List (List Nat)) (cmdErr : Option String)
    (hperm : Auth.HasPluginPermission am clientID cmdReq.plugin = .ok true)
    (p : Server.PluginRec) (hp : pm cmdReq.plugin = some p)
    (hstate : p.state = .Enabled ∨ p.state = .Running)
    (htype : p.ptype = .CommandPlugin) :
    ∃ call msgs,
      Server.handleCommandRequest am pm clientID requestID cmdReq encrypted
          chunks cmdErr = .ok (call, msgs) ∧
      msgs.length = chunks.length + 1 ∧
      (∀ i, i < chunks.length →
        msgs[i]? = (chunks[i]?).map
          (fun c => Server.OutMsg.dataStream requestID c encrypted)) ∧
      msgs[chunks.length]? =
        some (Server.commandResponseOf requestID cmdErr encrypted) ∧
      (∀ j rid d e, msgs[j]? = some (.dataStream rid d e) →
        j < chunks.length) := by
  have h1 : ¬(p.state ≠ Plugin.PluginState.Enabled ∧
      p.state ≠ Plugin.PluginState.Running) := by
    rcases hstate with h | h <;> simp [h]
  have h2 : ¬(p.ptype ≠ Plugin.PluginType.CommandPlugin) := by simp [htype]
  have hE : Server.handleCommandRequest am pm clientID requestID cmdReq encrypted
      chunks cmdErr =
      .ok (Server.ExecCall.mk (cmdReq.command :: cmdReq.args) none,
        Server.streamLoop requestID encrypted chunks ++
          [Server.commandResponseOf requestID cmdErr encrypted]) := by
    unfold Server.handleCommandRequest
    rw [hperm, hp]
    simp [h1, h2]
  refine ⟨_, _, hE, ?_, ?_, ?_, ?_⟩
  · rw [Server.streamLoop_eq_map]
    simp
  · intro i hi
    rw [Server.streamLoop_eq_map,
      List.getElem?_append_left (by simpa using hi), List.getElem?_map]
  · rw [Server.streamLoop_eq_map,
      List.getElem?_append_right (by simp)]
    simp
  · intro j rid d e hj
    by_contra hge
    push_neg at hge
    rw [Server.streamLoop_eq_map,
      List.getElem?_append_right (by simpa using hge)] at hj
    rcases hc : j - (chunks.map
        (fun c => Server.OutMsg.dataStream requestID c encrypted)).length with _ | m
    · rw [hc] at hj
      rcases cmdErr with _ | msg <;> simp [Server.commandResponseOf] at hj
    · rw [hc] at hj
      simp at hj

/-- Witness for C7 on a concrete permitted request whose plugin emits
two chunks. -/
theorem C7_witness :
    ∃ call msgs,
      Server.handleCommandRequest am3 pmEcho "c3" "r7" reqEcho false
          [[104], [105]] none = .ok (call, msgs) ∧
      msgs.length = ([[104], [105]] : List (List Nat)).length + 1 ∧
      (∀ i, i < ([[104], [105]] : List (List Nat)).length →
        msgs[i]? = (([[104], [105]] : List (List Nat))[i]?).map
          (fun c => Server.OutMsg.dataStream "r7" c false)) ∧
      msgs[([[104], [105]] : List (List Nat)).length]? =
        some (Server.commandResponseOf "r7" none false) ∧
      (∀ j rid d e, msgs[j]? = some (.dataStream rid d e) →
        j < ([[104], [105]] : List (List Nat)).length) :=
  C7_stream_ordering am3 pmEcho "c3" "r7" reqEcho false [[104], [105]] none rfl
    (Server.PluginRec.mk .Enabled .CommandPlugin) rfl (Or.inl rfl) rfl

/-- Witness for C5's amended statement at concrete inputs. -/
theorem C5_witness :
    Server.handleDataStream "c3" "r4" [1, 2] = .ok [] ∧
    Server.handleClientDataStep "c3" "r4" [1, 2] = ([], true) ∧
    ({ args := ["cat"], input := none } : Server.ExecCall).input = none :=
  have h := C5_datastream_amended "c3" "r4" [1, 2] am3 pmEcho "c3" "r4" reqInter
    true [] none
  ⟨h.1, h.2.1, h.2.2 { args := ["cat"], input := none }
    [Server.OutMsg.commandResponse "r4" true "Command executed successfully" true]
    rfl⟩

/-- Witness for C10 at a concrete expired session: validation fails as
expired but the session is still in the store. -/
theorem C10_witness :
    (Auth.ValidateSession 200 am1 "sid9").1 = am1 ∧
    (am1.sessions "sid9").isSome = true ∧
    ((Auth.ValidateSession 200 am1 "sid9").1.sessions "sid9").isSome = true :=
  have h := C10_validate_no_mutation 200 am1 "sid9"
  have h2 := h.2 (by rfl)
  ⟨h.1, h2.1, h2.2⟩
